import Mathlib

/-!
Shallow embedding of the sonnet search engine (src/part8/app.py and
src/part8/models.py).

Texts are embedded as `List Char`; Python `str.lower()` becomes a
character-wise `Char.toLower` map; spans are pairs of `Nat`.  Python's
`sorted` is a stable sort, which is embedded as `List.insertionSort`
(also stable) over the corresponding total preorder.  Python dicts keyed
by line number (insertion-ordered, assignment keeps the original slot)
are embedded as association-ordered `List LineMatch` with the operations
`dictAdd` (plain assignment) and `dictExtend` (extend the stored value's
span list).
-/

/-- A sonnet: `models.py` `Sonnet` (title + ordered lines); also stands for
the plain `{title, lines}` dict that `app.py`'s `search_sonnet` consumes. -/
structure Sonnet where
  title : List Char
  lines : List (List Char)
deriving Repr, DecidableEq

/-- `models.py` `LineMatch`: one matched body line with its spans. -/
structure LineMatch where
  line_no : Nat
  text : List Char
  spans : List (Nat × Nat)
deriving Repr, DecidableEq

/-- `models.py` `SearchResult`: a document's aggregated match data. -/
structure SearchResult where
  title : List Char
  title_spans : List (Nat × Nat)
  line_matches : List LineMatch
  «matches» : Nat
deriving Repr, DecidableEq

/-- Python `str.lower()`, character-wise. -/
def lower (s : List Char) : List Char := s.map Char.toLower

/-- `app.py` lines 22-32, `find_spans(text, pattern)`: all (possibly
overlapping) matches of `pattern` in `text` as half-open spans.  The Python
loop `for i in range(len(text) - len(pattern) + 1)` appends
`(i, i + len(pattern))` whenever `text[i:i+len(pattern)] == pattern`;
the empty-range case (pattern longer than text) is covered by
`text.length + 1 - pattern.length` truncating to `0`. -/
def find_spans (text pattern : List Char) : List (Nat × Nat) :=
  if pattern = [] then []
  else
    (List.range (text.length + 1 - pattern.length)).filterMap fun i =>
      if (text.drop i).take pattern.length = pattern then
        some (i, i + pattern.length)
      else none

/-- `models.py` lines 55-67, `Sonnet.find_spans` (same body as the free
function in `app.py`). -/
def Sonnet.find_spans (text pattern : List Char) : List (Nat × Nat) :=
  if pattern = [] then []
  else
    (List.range (text.length + 1 - pattern.length)).filterMap fun i =>
      if (text.drop i).take pattern.length = pattern then
        some (i, i + pattern.length)
      else none

/-- `models.py` lines 69-86, `Sonnet.search_for`: spans in the lowered
title, a `LineMatch` per 1-based line with non-empty spans, and the total
count. -/
def Sonnet.search_for (s : Sonnet) (query : List Char) : SearchResult :=
  let q := lower query
  let title_spans := Sonnet.find_spans (lower s.title) q
  let line_matches := (s.lines.enumFrom 1).filterMap fun p =>
    let spans := Sonnet.find_spans (lower p.2) q
    if spans = [] then none else some ⟨p.1, p.2, spans⟩
  ⟨s.title, title_spans, line_matches,
    title_spans.length + (line_matches.map fun lm => lm.spans.length).sum⟩

/-- `app.py` lines 68-91, `search_sonnet(sonnet, query)` (same algorithm as
`Sonnet.search_for`, operating on the dict form of the record). -/
def search_sonnet (sonnet : Sonnet) (query : List Char) : SearchResult :=
  let q := lower query
  let title_spans := find_spans (lower sonnet.title) q
  let line_matches := (sonnet.lines.enumFrom 1).filterMap fun p =>
    let spans := find_spans (lower p.2) q
    if spans = [] then none else some ⟨p.1, p.2, spans⟩
  ⟨sonnet.title, title_spans, line_matches,
    title_spans.length + (line_matches.map fun lm => lm.spans.length).sum⟩

/-- Lexicographic order on spans: the order Python's `sorted` uses on
`(start, end)` tuples. -/
def spanLe (p q : Nat × Nat) : Prop :=
  p.1 < q.1 ∨ (p.1 = q.1 ∧ p.2 ≤ q.2)

instance : DecidableRel spanLe := fun p q => by
  unfold spanLe; exact inferInstance

instance : IsTotal (Nat × Nat) spanLe :=
  ⟨fun p q => by unfold spanLe; omega⟩

instance : IsTrans (Nat × Nat) spanLe :=
  ⟨fun p q u hpq hqu => by revert hpq hqu; unfold spanLe; omega⟩

/-- Python `sorted(spans)`: stable sort by `(start, end)`. -/
def sortSpans (l : List (Nat × Nat)) : List (Nat × Nat) :=
  l.insertionSort spanLe

/-- Order on line matches used by `sorted(..., key=lambda lm: lm.line_no)`. -/
def lmLe (x y : LineMatch) : Prop := x.line_no ≤ y.line_no

instance : DecidableRel lmLe := fun x y => by
  unfold lmLe; exact inferInstance

instance : IsTotal LineMatch lmLe :=
  ⟨fun x y => Nat.le_total x.line_no y.line_no⟩

instance : IsTrans LineMatch lmLe :=
  ⟨fun _ _ _ h1 h2 => Nat.le_trans h1 h2⟩

/-- Python `sorted(lines_by_no.values(), key=lambda lm: lm.line_no)`:
stable sort by line number. -/
def sortLineMatches (l : List LineMatch) : List LineMatch :=
  l.insertionSort lmLe

/-- One Python dict assignment `d[lm.line_no] = lm` on an insertion-ordered
dict keyed by line number: an existing key keeps its slot (its value is
replaced), a new key is appended at the end. -/
def dictAdd (d : List LineMatch) (lm : LineMatch) : List LineMatch :=
  if ∃ x ∈ d, x.line_no = lm.line_no then
    d.map fun x => if x.line_no = lm.line_no then lm else x
  else d ++ [lm]

/-- One iteration of the second merge loop of `combine_with`
(`models.py` lines 135-140): if the line number is already a key, extend
the stored value's span list in place; otherwise insert a copy. -/
def dictExtend (d : List LineMatch) (lm : LineMatch) : List LineMatch :=
  if ∃ x ∈ d, x.line_no = lm.line_no then
    d.map fun x =>
      if x.line_no = lm.line_no then { x with spans := x.spans ++ lm.spans }
      else x
  else d ++ [lm]

/-- `models.py` lines 121-146, `SearchResult.combine_with`: matches add,
title spans are the sorted concatenation, line matches are merged through
the `lines_by_no` dict and sorted by line number.  (`combined = self.copy()`
keeps `self.title`; every other field is overwritten.) -/
def SearchResult.combine_with (r other : SearchResult) : SearchResult :=
  let lines_by_no := r.line_matches.foldl dictAdd []
  let lines_by_no := other.line_matches.foldl dictExtend lines_by_no
  { title := r.title
    title_spans := sortSpans (r.title_spans ++ other.title_spans)
    line_matches := sortLineMatches lines_by_no
    «matches» := r.«matches» + other.«matches» }

/-- `app.py` lines 95-123, `combine_results(result1, result2)`: the same
merge, written over the dict form of the records.  (Its heap effect on
`result1` is modelled separately by `combine_results_mut`.) -/
def combine_results (result1 result2 : SearchResult) : SearchResult :=
  let lines_by_no := result1.line_matches.foldl dictAdd []
  let lines_by_no := result2.line_matches.foldl dictExtend lines_by_no
  { title := result1.title
    title_spans := sortSpans (result1.title_spans ++ result2.title_spans)
    line_matches := sortLineMatches lines_by_no
    «matches» := result1.«matches» + result2.«matches» }

/-- Heap model of `app.py`'s `combine_results` for inputs whose line
numbers are unique per result (the shape `search_sonnet` produces).
`dict(lm)` copies the line-match record but aliases its `spans` list, so
`lines_by_no[ln]["spans"].extend(lm["spans"])` grows the span list still
referenced from `result1.line_matches`; the second component is the
post-call state of `result1`. -/
def combine_results_mut (result1 result2 : SearchResult) :
    SearchResult × SearchResult :=
  let result1_after :=
    { result1 with
      line_matches := result1.line_matches.map fun lm =>
        { lm with
          spans := lm.spans ++
            ((result2.line_matches.filter
                fun x => x.line_no == lm.line_no).map
              fun x => x.spans).flatten } }
  (combine_results result1 result2, result1_after)

/-- The ANSI start marker `"\x1b[43m\x1b[30m"` (yellow background, black
text) inserted before each merged span. -/
def hlStart : List Char :=
  ['\x1b', '[', '4', '3', 'm', '\x1b', '[', '3', '0', 'm']

/-- The ANSI reset marker `"\x1b[0m"` inserted after each merged span. -/
def hlEnd : List Char := ['\x1b', '[', '0', 'm']

/-- The span-merging loop of `ansi_highlight` (`models.py` lines 158-165):
running pair `(current_start, current_end)` absorbs the next span when its
start is `≤ current_end` (taking the max end), otherwise the pair is
emitted and restarted. -/
def mergeSpansLoop (current_start current_end : Nat) :
    List (Nat × Nat) → List (Nat × Nat)
  | [] => [(current_start, current_end)]
  | (s, e) :: rest =>
    if s ≤ current_end then
      mergeSpansLoop current_start (max current_end e) rest
    else
      (current_start, current_end) :: mergeSpansLoop s e rest

/-- The merged span list built by `ansi_highlight` from the sorted spans:
the loop seeded with the first sorted span. -/
def merge_overlapping : List (Nat × Nat) → List (Nat × Nat)
  | [] => []
  | (s0, e0) :: rest => mergeSpansLoop s0 e0 rest

/-- The output-building loop of `ansi_highlight` (`models.py` lines
167-178): interleaves the literal text outside the merged spans with
marker-wrapped text inside them, then appends the tail `text[i:]`. -/
def buildOut (text : List Char) : List (Nat × Nat) → Nat → List Char
  | [], i => text.drop i
  | (s, e) :: rest, i =>
    (text.drop i).take (s - i) ++ hlStart ++
      (text.drop s).take (e - s) ++ hlEnd ++ buildOut text rest e

/-- `models.py` lines 148-178, `SearchResult.ansi_highlight`: returns the
text unchanged for an empty span list, otherwise sorts the spans, merges
overlapping/touching ones and wraps each merged region in ANSI markers.
(`sortSpans spans = []` exactly when `spans = []`.) -/
def SearchResult.ansi_highlight (text : List Char)
    (spans : List (Nat × Nat)) : List Char :=
  if sortSpans spans = [] then text
  else buildOut text (merge_overlapping (sortSpans spans)) 0

/-- `app.py` lines 36-64, the free function `ansi_highlight` (same body as
the static method on `SearchResult`). -/
def ansi_highlight (text : List Char) (spans : List (Nat × Nat)) :
    List Char :=
  if sortSpans spans = [] then text
  else buildOut text (merge_overlapping (sortSpans spans)) 0

/-- Removes every occurrence of the two ANSI marker byte sequences
(`hlStart` and `hlEnd`) from a character list. -/
def stripMarkers : List Char → List Char
  | [] => []
  | c :: cs =>
    if (c :: cs).take hlStart.length = hlStart then
      stripMarkers ((c :: cs).drop hlStart.length)
    else if (c :: cs).take hlEnd.length = hlEnd then
      stripMarkers ((c :: cs).drop hlEnd.length)
    else c :: stripMarkers cs
termination_by l => l.length
decreasing_by
  all_goals simp only [List.length_drop, List.length_cons, hlStart, hlEnd,
    List.length]
  all_goals omega

/-- The per-document fold step of the query loop in `main` (`app.py`
lines 362-372): `AND` combines only when both sides have matches and
otherwise forces `matches` to `0` on the accumulated record (leaving its
other fields alone); `OR` combines unconditionally; any other mode falls
through both branches, leaving the accumulated record untouched. -/
def combineStep (search_mode : String)
    (combined_result result : SearchResult) : SearchResult :=
  if search_mode = "AND" then
    if combined_result.«matches» > 0 ∧ result.«matches» > 0 then
      combine_results combined_result result
    else { combined_result with «matches» := 0 }
  else if search_mode = "OR" then
    combine_results combined_result result
  else combined_result

/-- One iteration of the word loop of `main` (`app.py` lines 345-372):
search every sonnet for the word; the first word's results seed the
accumulator (`if not combined_results`), and a later word is folded in
slot-by-slot with `combineStep`. -/
def evaluateStep (sonnets : List Sonnet) (search_mode : String)
    (combined_results : List SearchResult) (word : List Char) :
    List SearchResult :=
  let results := sonnets.map fun s => search_sonnet s word
  if combined_results.isEmpty then results
  else List.zipWith (combineStep search_mode) combined_results results

/-- The query-evaluation loop of `main` (`app.py` lines 341-372): the word
loop folded over an initially empty accumulator. -/
def evaluate (sonnets : List Sonnet) (words : List (List Char))
    (search_mode : String) : List SearchResult :=
  words.foldl (evaluateStep sonnets search_mode) []

/-- Extends a line match by the spans of the (first) line match with the
same line number in `bl`, if any.  Spec-side description of what the
`lines_by_no` merge does to a line already present in the left input. -/
def extendByMatch (bl : List LineMatch) (x : LineMatch) : LineMatch :=
  match bl.find? fun lb => lb.line_no == x.line_no with
  | some lb => { x with spans := x.spans ++ lb.spans }
  | none => x

/-- Spec-side description of the line-match merge of `combine`: every line
of `al` with its spans extended by the matching line of `bl` (no dedup, no
resort within the line), followed by the lines of `bl` whose line number
does not occur in `al`. -/
def mergeLineMatches (al bl : List LineMatch) : List LineMatch :=
  al.map (extendByMatch bl) ++
    bl.filter fun lb => decide (¬ ∃ x ∈ al, x.line_no = lb.line_no)

/-- Sample result used by concrete witnesses: one title span and one
matched line. -/
def sampleA : SearchResult :=
  ⟨"ab ab".toList, [(0, 2)], [⟨1, "ab".toList, [(0, 2)]⟩], 2⟩

/-- Second sample result over the same document, matching the same line. -/
def sampleB : SearchResult :=
  ⟨"ab ab".toList, [(1, 2)], [⟨1, "ab".toList, [(1, 2)]⟩], 2⟩

/-- Sample sonnet used by concrete witnesses (the spec's end-to-end
example document, apostrophes elided). -/
def s1 : Sonnet :=
  ⟨"Sonnet 1".toList,
    ["From fairest creatures we desire increase,".toList,
      "That thereby beauty rose might never die,".toList]⟩

/-! ### Claim C1: `find_spans` -/

lemma find_spans_nil_pattern (text : List Char) : find_spans text [] = [] := by
  simp [find_spans]

lemma mem_find_spans_iff (text pattern : List Char) (p : Nat × Nat) :
    p ∈ find_spans text pattern ↔
      pattern ≠ [] ∧ p.2 = p.1 + pattern.length ∧
      p.1 + pattern.length ≤ text.length ∧
      (text.drop p.1).take pattern.length = pattern := by
  by_cases hp : pattern = []
  · simp [find_spans, hp]
  · simp only [find_spans, if_neg hp, List.mem_filterMap, List.mem_range]
    constructor
    · rintro ⟨i, hi, hf⟩
      split at hf
      · next h =>
          obtain rfl : (i, i + pattern.length) = p := Option.some.inj hf
          exact ⟨hp, rfl, by omega, h⟩
      · exact absurd hf (by simp)
    · rintro ⟨-, h2, h3, h4⟩
      have hlen : pattern.length ≠ 0 := by
        simpa [List.length_eq_zero] using hp
      refine ⟨p.1, by omega, ?_⟩
      rw [if_pos h4]
      exact congrArg some (Prod.ext rfl h2.symm)

lemma find_spans_pairwise (text pattern : List Char) :
    (find_spans text pattern).Pairwise fun a b => a.1 < b.1 := by
  by_cases hp : pattern = []
  · simp [find_spans, hp]
  · rw [find_spans, if_neg hp]
    refine List.Pairwise.filterMap _ ?_ (List.pairwise_lt_range _)
    intro i j hij x hx y hy
    split at hx
    · obtain rfl : (i, i + pattern.length) = x := Option.some.inj hx
      split at hy
      · obtain rfl : (j, j + pattern.length) = y := Option.some.inj hy
        exact hij
      · exact absurd hy (by simp)
    · exact absurd hx (by simp)

/-- C1: `find_spans text pattern` is exactly the ascending-by-start list of
the pairs `(i, i + pattern.length)` at every offset `i` with
`i + pattern.length ≤ text.length` where the substring of `text` starting
at `i` equals `pattern` (overlaps retained), it is empty for an empty
pattern, and the two concrete examples of the spec evaluate as stated. -/
theorem find_spans_spec (text pattern : List Char) (p : Nat × Nat) :
    find_spans text [] = []
  ∧ (p ∈ find_spans text pattern ↔
      pattern ≠ [] ∧ p.2 = p.1 + pattern.length ∧
      p.1 + pattern.length ≤ text.length ∧
      (text.drop p.1).take pattern.length = pattern)
  ∧ (find_spans text pattern).Pairwise (fun a b => a.1 < b.1)
  ∧ find_spans "to be or not to be".toList "to".toList = [(0, 2), (13, 15)]
  ∧ find_spans "aaa".toList "aa".toList = [(0, 2), (1, 3)] :=
  ⟨find_spans_nil_pattern text, mem_find_spans_iff text pattern p,
    find_spans_pairwise text pattern, by decide, by decide⟩

/-! ### Claim C2: `Sonnet.search_for` -/

lemma mem_search_for_line_matches (s : Sonnet) (query : List Char)
    (lm : LineMatch) :
    lm ∈ (s.search_for query).line_matches ↔
      1 ≤ lm.line_no ∧ s.lines[lm.line_no - 1]? = some lm.text ∧
      lm.spans = Sonnet.find_spans (lower lm.text) (lower query) ∧
      lm.spans ≠ [] := by
  simp only [Sonnet.search_for, List.mem_filterMap]
  constructor
  · rintro ⟨⟨i, x⟩, hp, hf⟩
    rw [List.mk_mem_enumFrom_iff_le_and_getElem?_sub] at hp
    by_cases hs : Sonnet.find_spans (lower x) (lower query) = []
    · rw [if_pos hs] at hf
      exact absurd hf (by simp)
    · rw [if_neg hs] at hf
      obtain rfl : (⟨i, x, _⟩ : LineMatch) = lm := Option.some.inj hf
      exact ⟨hp.1, by simpa using hp.2, rfl, hs⟩
  · rintro ⟨h1, h2, h3, h4⟩
    refine ⟨(lm.line_no, lm.text), ?_, ?_⟩
    · rw [List.mk_mem_enumFrom_iff_le_and_getElem?_sub]
      exact ⟨h1, h2⟩
    · rw [if_neg (by rw [← h3]; exact h4)]
      refine congrArg some ?_
      cases lm
      simpa using h3.symm

/-- C2: `search_for` keeps the document's title, its `title_spans` are
`find_spans` of the lowered title against the lowered query, its
`line_matches` contain a `LineMatch` exactly for the 1-based line numbers
whose lowered line has at least one span (carrying the original line text
and its spans), and `matches` is the span count of the title plus the sum
of span counts over all line matches.  (The embedding is purely
functional, so the document itself is untouched by construction.) -/
theorem search_for_spec (s : Sonnet) (query : List Char) (lm : LineMatch) :
    (s.search_for query).title = s.title
  ∧ (s.search_for query).title_spans =
      Sonnet.find_spans (lower s.title) (lower query)
  ∧ (lm ∈ (s.search_for query).line_matches ↔
      1 ≤ lm.line_no ∧ s.lines[lm.line_no - 1]? = some lm.text ∧
      lm.spans = Sonnet.find_spans (lower lm.text) (lower query) ∧
      lm.spans ≠ [])
  ∧ (s.search_for query).«matches» =
      (s.search_for query).title_spans.length +
        ((s.search_for query).line_matches.map fun m => m.spans.length).sum :=
  ⟨rfl, rfl, mem_search_for_line_matches s query lm, rfl⟩

/-! ### Claim C6: span merging in `ansi_highlight` -/

lemma sortSpans_eq_nil_iff (l : List (Nat × Nat)) : sortSpans l = [] ↔ l = [] := by
  constructor
  · intro he
    have h := List.perm_insertionSort spanLe l
    rw [sortSpans] at he
    rw [he] at h
    exact h.symm.eq_nil
  · intro he
    subst he
    rfl

lemma mergeSpansLoop_head :
    ∀ (rest : List (Nat × Nat)) (cs ce : Nat),
      ∃ ce2 tail, mergeSpansLoop cs ce rest = (cs, ce2) :: tail
  | [], cs, ce => ⟨ce, [], rfl⟩
  | (s, e) :: rest, cs, ce => by
    by_cases h : s ≤ ce
    · simpa [mergeSpansLoop, h] using mergeSpansLoop_head rest cs (max ce e)
    · exact ⟨ce, mergeSpansLoop s e rest, by simp [mergeSpansLoop, h]⟩

lemma mergeSpansLoop_chain :
    ∀ (rest : List (Nat × Nat)) (cs ce : Nat),
      (mergeSpansLoop cs ce rest).Chain' fun a b => a.2 < b.1
  | [], cs, ce => by simp [mergeSpansLoop]
  | (s, e) :: rest, cs, ce => by
    by_cases h : s ≤ ce
    · simpa [mergeSpansLoop, h] using mergeSpansLoop_chain rest cs (max ce e)
    · simp only [mergeSpansLoop, if_neg h]
      obtain ⟨ce2, tail, heq⟩ := mergeSpansLoop_head rest s e
      rw [heq, List.chain'_cons]
      exact ⟨by simp; omega, heq ▸ mergeSpansLoop_chain rest s e⟩

lemma mergeSpansLoop_wf :
    ∀ (rest : List (Nat × Nat)) (cs ce : Nat), cs ≤ ce →
      (∀ p ∈ rest, p.1 ≤ p.2) →
      ∀ p ∈ mergeSpansLoop cs ce rest, p.1 ≤ p.2
  | [], cs, ce, h, _ => by
    simp only [mergeSpansLoop, List.mem_singleton]
    rintro p rfl
    exact h
  | (s, e) :: rest, cs, ce, h, hr => by
    by_cases hle : s ≤ ce
    · simp only [mergeSpansLoop, if_pos hle]
      exact mergeSpansLoop_wf rest cs (max ce e)
        (le_trans h (le_max_left _ _))
        fun p hp => hr p (List.mem_cons_of_mem _ hp)
    · simp only [mergeSpansLoop, if_neg hle]
      intro p hp
      rcases List.mem_cons.mp hp with rfl | hp2
      · exact h
      · exact mergeSpansLoop_wf rest s e
          (hr (s, e) (List.mem_cons_self _ _))
          (fun p hp => hr p (List.mem_cons_of_mem _ hp)) p hp2

lemma merge_overlapping_chain (l : List (Nat × Nat)) :
    (merge_overlapping l).Chain' fun a b => a.2 < b.1 := by
  cases l with
  | nil => simp [merge_overlapping]
  | cons hd tl =>
    obtain ⟨s0, e0⟩ := hd
    exact mergeSpansLoop_chain tl s0 e0

lemma ansi_highlight_nil (text : List Char) :
    SearchResult.ansi_highlight text [] = text := rfl

/-- C6: highlighting with no spans is the identity; otherwise the operation
sorts the spans ascending by `(start, end)` (a stable sort: the sorted list
is a sorted permutation of the input) and merges them with the inclusive
rule — a next span starting at or before the current merged end is
absorbed (taking the max end), so the merged regions are pairwise disjoint
with strict gaps — and the spec's example collapses `[(1,3),(2,4)]` into
the single marked region `(1,4)`. -/
theorem ansi_highlight_merge_spec (text : List Char)
    (spans : List (Nat × Nat)) (s1 e1 s2 e2 : Nat) :
    SearchResult.ansi_highlight text [] = text
  ∧ (spans ≠ [] → SearchResult.ansi_highlight text spans =
      buildOut text (merge_overlapping (sortSpans spans)) 0)
  ∧ (sortSpans spans).Sorted spanLe
  ∧ (sortSpans spans).Perm spans
  ∧ (s1 ≤ s2 → s2 ≤ e1 →
      merge_overlapping [(s1, e1), (s2, e2)] = [(s1, max e1 e2)])
  ∧ (merge_overlapping (sortSpans spans)).Chain' (fun a b => a.2 < b.1)
  ∧ SearchResult.ansi_highlight "xaaay".toList [(1, 3), (2, 4)]
      = "x".toList ++ hlStart ++ "aaa".toList ++ hlEnd ++ "y".toList := by
  refine ⟨ansi_highlight_nil text, ?_, ?_, ?_, ?_,
    merge_overlapping_chain _, by decide⟩
  · intro hne
    rw [SearchResult.ansi_highlight,
      if_neg fun h => hne ((sortSpans_eq_nil_iff spans).mp h)]
  · exact List.sorted_insertionSort spanLe spans
  · exact List.perm_insertionSort spanLe spans
  · intro h1 h2
    simp [merge_overlapping, mergeSpansLoop, h2]

/-- Witness for C6 at concrete inputs, discharging both hypotheses of the
merge-rule conjunct and the non-emptiness hypothesis. -/
theorem ansi_highlight_merge_spec_witness :
    SearchResult.ansi_highlight "xaaay".toList [(1, 3), (2, 4)] =
      buildOut "xaaay".toList
        (merge_overlapping (sortSpans [(1, 3), (2, 4)])) 0
  ∧ merge_overlapping [(1, 3), (2, 4)] = [(1, max 3 4)] :=
  ⟨(ansi_highlight_merge_spec "xaaay".toList [(1, 3), (2, 4)] 1 3 2 4).2.1
      (by decide),
    (ansi_highlight_merge_spec "xaaay".toList [(1, 3), (2, 4)] 1 3 2 4
      ).2.2.2.2.1 (by decide) (by decide)⟩

/-! ### Claim C10: the highlighter only inserts markup -/

lemma eq_esc_of_take_hlStart {c : Char} {cs : List Char}
    (h : (c :: cs).take hlStart.length = hlStart) : c = '\x1b' := by
  have h2 : (c :: cs).take (9 + 1) = hlStart := h
  rw [List.take_succ_cons] at h2
  simp only [hlStart] at h2
  injection h2

lemma eq_esc_of_take_hlEnd {c : Char} {cs : List Char}
    (h : (c :: cs).take hlEnd.length = hlEnd) : c = '\x1b' := by
  have h2 : (c :: cs).take (3 + 1) = hlEnd := h
  rw [List.take_succ_cons] at h2
  simp only [hlEnd] at h2
  injection h2

lemma stripMarkers_nil : stripMarkers [] = [] := by
  simp [stripMarkers]

lemma stripMarkers_hlStart_append (l : List Char) :
    stripMarkers (hlStart ++ l) = stripMarkers l := by
  have he : hlStart ++ l =
      '\x1b' :: (['[', '4', '3', 'm', '\x1b', '[', '3', '0', 'm'] ++ l) := rfl
  have htake : ('\x1b' ::
      (['[', '4', '3', 'm', '\x1b', '[', '3', '0', 'm'] ++ l)).take
        hlStart.length = hlStart := by
    rw [← he]
    exact List.take_left hlStart l
  have hdrop : ('\x1b' ::
      (['[', '4', '3', 'm', '\x1b', '[', '3', '0', 'm'] ++ l)).drop
        hlStart.length = l := by
    rw [← he]
    exact List.drop_left hlStart l
  rw [he, stripMarkers, if_pos htake, hdrop]

lemma take_hlEnd_append_ne_hlStart (l : List Char) :
    (hlEnd ++ l).take hlStart.length ≠ hlStart := by
  intro h
  rw [List.take_append_eq_append_take,
    List.take_of_length_le (by simp [hlEnd, hlStart])] at h
  simp [hlEnd, hlStart] at h

lemma stripMarkers_hlEnd_append (l : List Char) :
    stripMarkers (hlEnd ++ l) = stripMarkers l := by
  have he : hlEnd ++ l = '\x1b' :: (['[', '0', 'm'] ++ l) := rfl
  have hne : ('\x1b' :: (['[', '0', 'm'] ++ l)).take hlStart.length
      ≠ hlStart := by
    rw [← he]
    exact take_hlEnd_append_ne_hlStart l
  have htake : ('\x1b' :: (['[', '0', 'm'] ++ l)).take hlEnd.length
      = hlEnd := by
    rw [← he]
    exact List.take_left hlEnd l
  have hdrop : ('\x1b' :: (['[', '0', 'm'] ++ l)).drop hlEnd.length = l := by
    rw [← he]
    exact List.drop_left hlEnd l
  rw [he, stripMarkers, if_neg hne, if_pos htake, hdrop]

lemma stripMarkers_escFree_append (c l : List Char) (hc : '\x1b' ∉ c) :
    stripMarkers (c ++ l) = c ++ stripMarkers l := by
  induction c with
  | nil => simp
  | cons ch cs ih =>
    have hch : ch ≠ '\x1b' := by
      intro h
      exact hc (h ▸ List.mem_cons_self ch cs)
    have hcs : '\x1b' ∉ cs := fun h => hc (List.mem_cons_of_mem ch h)
    rw [List.cons_append, stripMarkers,
      if_neg (fun h => hch (eq_esc_of_take_hlStart h)),
      if_neg (fun h => hch (eq_esc_of_take_hlEnd h)), ih hcs,
      List.cons_append]

lemma stripMarkers_escFree (c : List Char) (hc : '\x1b' ∉ c) :
    stripMarkers c = c := by
  have h := stripMarkers_escFree_append c [] hc
  simpa [stripMarkers_nil] using h

lemma strip_buildOut (text : List Char) (hesc : '\x1b' ∉ text) :
    ∀ (l : List (Nat × Nat)) (i : Nat), (∀ p ∈ l, p.1 ≤ p.2) →
      l.Chain' (fun a b => a.2 < b.1) → (∀ p ∈ l.head?, i ≤ p.1) →
      stripMarkers (buildOut text l i) = text.drop i := by
  intro l
  induction l with
  | nil =>
    intro i _ _ _
    simp only [buildOut]
    exact stripMarkers_escFree _ fun h => hesc (List.drop_subset i text h)
  | cons hd rest ih =>
    obtain ⟨s, e⟩ := hd
    intro i hwf hchain hhead
    have his : i ≤ s := hhead (s, e) rfl
    have hse : s ≤ e := hwf (s, e) (List.mem_cons_self _ _)
    have hchain2 := List.chain'_cons'.mp hchain
    have hrec : stripMarkers (buildOut text rest e) = text.drop e :=
      ih e (fun p hp => hwf p (List.mem_cons_of_mem _ hp)) hchain2.2
        fun p hp => Nat.le_of_lt (hchain2.1 p hp)
    have hc1 : '\x1b' ∉ (text.drop i).take (s - i) := fun h =>
      hesc (List.drop_subset i text (List.take_subset _ _ h))
    have hc2 : '\x1b' ∉ (text.drop s).take (e - s) := fun h =>
      hesc (List.drop_subset s text (List.take_subset _ _ h))
    simp only [buildOut, List.append_assoc]
    rw [stripMarkers_escFree_append _ _ hc1, stripMarkers_hlStart_append,
      stripMarkers_escFree_append _ _ hc2, stripMarkers_hlEnd_append, hrec]
    have hBe : (text.drop s).take (e - s) ++ text.drop e = text.drop s := by
      have h1 : text.drop e = (text.drop s).drop (e - s) := by
        rw [List.drop_drop]
        congr 1
        omega
      rw [h1, List.take_append_drop]
    have hAs : (text.drop i).take (s - i) ++ text.drop s = text.drop i := by
      have h1 : text.drop s = (text.drop i).drop (s - i) := by
        rw [List.drop_drop]
        congr 1
        omega
      rw [h1, List.take_append_drop]
    rw [hBe, hAs]

/-- C10: for a text containing no ANSI escape character and spans with
`start ≤ end ≤ length(text)`, removing every occurrence of the marker
byte sequences `ESC[43mESC[30m` and `ESC[0m` from the highlighted output
recovers the original text exactly. -/
theorem highlight_only_inserts_markup (text : List Char)
    (spans : List (Nat × Nat)) (hesc : '\x1b' ∉ text)
    (hspans : ∀ p ∈ spans, p.1 ≤ p.2 ∧ p.2 ≤ text.length) :
    stripMarkers (SearchResult.ansi_highlight text spans) = text := by
  by_cases hnil : sortSpans spans = []
  · rw [SearchResult.ansi_highlight, if_pos hnil]
    exact stripMarkers_escFree text hesc
  · rw [SearchResult.ansi_highlight, if_neg hnil]
    obtain ⟨hd, tl, hlist⟩ : ∃ hd tl, sortSpans spans = hd :: tl := by
      cases h : sortSpans spans with
      | nil => exact absurd h hnil
      | cons a b => exact ⟨a, b, rfl⟩
    obtain ⟨s0, e0⟩ := hd
    have hsortmem : ∀ p ∈ sortSpans spans, p.1 ≤ p.2 := fun p hp =>
      (hspans p ((List.perm_insertionSort spanLe spans).mem_iff.mp hp)).1
    rw [hlist]
    simp only [merge_overlapping]
    have h0 : stripMarkers (buildOut text (mergeSpansLoop s0 e0 tl) 0)
        = text.drop 0 :=
      strip_buildOut text hesc _ 0
        (mergeSpansLoop_wf tl s0 e0
          (hsortmem (s0, e0) (hlist ▸ List.mem_cons_self _ _))
          fun p hp => hsortmem p (hlist ▸ List.mem_cons_of_mem _ hp))
        (mergeSpansLoop_chain tl s0 e0)
        fun p _ => Nat.zero_le _
    simpa using h0

/-- Witness for C10 at a concrete input, discharging both hypotheses. -/
theorem highlight_only_inserts_markup_witness :
    '\x1b' ∉ "xaaay".toList
  ∧ stripMarkers (SearchResult.ansi_highlight "xaaay".toList [(1, 3), (2, 4)])
      = "xaaay".toList :=
  ⟨by decide, highlight_only_inserts_markup "xaaay".toList [(1, 3), (2, 4)]
    (by decide) (by decide)⟩

/-! ### Claim C3: `combine_with` -/

lemma extendByMatch_nil (x : LineMatch) : extendByMatch [] x = x := rfl

lemma extendByMatch_cons_pos {lb x : LineMatch} (bl : List LineMatch)
    (h : lb.line_no = x.line_no) :
    extendByMatch (lb :: bl) x = { x with spans := x.spans ++ lb.spans } := by
  rw [extendByMatch, List.find?_cons_of_pos _ (by simp [h])]

lemma extendByMatch_cons_neg {lb x : LineMatch} {bl : List LineMatch}
    (h : lb.line_no ≠ x.line_no) :
    extendByMatch (lb :: bl) x = extendByMatch bl x := by
  rw [extendByMatch, List.find?_cons_of_neg _ (by simp [h]), extendByMatch]

lemma extendByMatch_of_not_mem {x : LineMatch} {bl : List LineMatch}
    (h : ∀ lb ∈ bl, lb.line_no ≠ x.line_no) : extendByMatch bl x = x := by
  rw [extendByMatch, List.find?_eq_none.mpr (by simpa using h)]

lemma dictAdd_of_not_mem (d : List LineMatch) (lm : LineMatch)
    (h : ∀ x ∈ d, x.line_no ≠ lm.line_no) : dictAdd d lm = d ++ [lm] := by
  rw [dictAdd, if_neg]
  rintro ⟨x, hx, hx2⟩
  exact h x hx hx2

lemma foldl_dictAdd :
    ∀ (l d : List LineMatch), ((d ++ l).map LineMatch.line_no).Nodup →
      l.foldl dictAdd d = d ++ l
  | [], d, _ => by simp
  | lm :: rest, d, h => by
    have hmem : ∀ x ∈ d, x.line_no ≠ lm.line_no := by
      intro x hx heq
      rw [List.map_append, List.nodup_append] at h
      exact h.2.2 (List.mem_map_of_mem _ hx) (by simp [heq])
    rw [List.foldl_cons, dictAdd_of_not_mem d lm hmem]
    rw [List.append_cons] at h
    exact (foldl_dictAdd rest (d ++ [lm]) h).trans (by rw [← List.append_cons])

lemma line_no_dictExtend_map (lb x : LineMatch) :
    ((if x.line_no = lb.line_no
        then { x with spans := x.spans ++ lb.spans } else x) :
      LineMatch).line_no = x.line_no := by
  by_cases hxx : x.line_no = lb.line_no <;> simp [hxx]

lemma filter_keys_congr {d1 d2 : List LineMatch}
    (hk : ∀ k, (∃ x ∈ d1, x.line_no = k) ↔ ∃ x ∈ d2, x.line_no = k)
    (l : List LineMatch) :
    (l.filter fun y => decide (¬ ∃ x ∈ d1, x.line_no = y.line_no)) =
      l.filter fun y => decide (¬ ∃ x ∈ d2, x.line_no = y.line_no) := by
  refine List.filter_congr ?_
  intro y _
  rw [decide_eq_decide]
  exact not_congr (hk y.line_no)

lemma foldl_dictExtend :
    ∀ (bl : List LineMatch) (d : List LineMatch),
      (bl.map LineMatch.line_no).Nodup →
      bl.foldl dictExtend d = mergeLineMatches d bl
  | [], d, _ => by
    rw [List.foldl_nil, mergeLineMatches,
      List.map_congr_left fun x _ => extendByMatch_nil x]
    simp
  | lb :: rest, d, h => by
    have h2 : (lb.line_no :: rest.map LineMatch.line_no).Nodup := by
      simpa using h
    have hkey : ∀ y ∈ rest, y.line_no ≠ lb.line_no := by
      intro y hy heq
      exact (List.nodup_cons.mp h2).1 (heq ▸ List.mem_map_of_mem _ hy)
    have hrest : (rest.map LineMatch.line_no).Nodup := (List.nodup_cons.mp h2).2
    rw [List.foldl_cons, foldl_dictExtend rest (dictExtend d lb) hrest]
    by_cases hd : ∃ x ∈ d, x.line_no = lb.line_no
    · rw [dictExtend, if_pos hd, mergeLineMatches, mergeLineMatches]
      have hmap :
          (d.map fun z => if z.line_no = lb.line_no
              then { z with spans := z.spans ++ lb.spans } else z).map
            (extendByMatch rest) = d.map (extendByMatch (lb :: rest)) := by
        rw [List.map_map]
        refine List.map_congr_left ?_
        intro x _
        by_cases hx : x.line_no = lb.line_no
        · show extendByMatch rest
              (if x.line_no = lb.line_no
                then { x with spans := x.spans ++ lb.spans } else x) = _
          rw [if_pos hx,
            extendByMatch_of_not_mem fun y hy => by
              show y.line_no ≠ x.line_no
              rw [hx]
              exact hkey y hy,
            extendByMatch_cons_pos rest hx.symm]
        · show extendByMatch rest
              (if x.line_no = lb.line_no
                then { x with spans := x.spans ++ lb.spans } else x) = _
          rw [if_neg hx, extendByMatch_cons_neg fun hh => hx hh.symm]
      have hkeys : ∀ k : Nat,
          (∃ y ∈ (d.map fun z => if z.line_no = lb.line_no
              then { z with spans := z.spans ++ lb.spans } else z),
            y.line_no = k) ↔ ∃ y ∈ d, y.line_no = k := by
        intro k
        simp only [List.mem_map]
        constructor
        · rintro ⟨y, ⟨x, hx, rfl⟩, hyk⟩
          exact ⟨x, hx, by rw [← line_no_dictExtend_map lb x]; exact hyk⟩
        · rintro ⟨y, hy, hyk⟩
          exact ⟨_, ⟨y, hy, rfl⟩, by rw [line_no_dictExtend_map lb y]; exact hyk⟩
      rw [hmap, filter_keys_congr hkeys rest, List.filter_cons,
        if_neg (by simpa using hd)]
    · rw [dictExtend, if_neg hd, mergeLineMatches, mergeLineMatches]
      have hnotd : ∀ x ∈ d, x.line_no ≠ lb.line_no := by
        intro x hx heq
        exact hd ⟨x, hx, heq⟩
      have hlb : extendByMatch rest lb = lb :=
        extendByMatch_of_not_mem fun y hy => hkey y hy
      have hdmap : ∀ x ∈ d,
          extendByMatch (lb :: rest) x = extendByMatch rest x := fun x hx =>
        extendByMatch_cons_neg fun hh => hnotd x hx hh.symm
      have hfilt2 :
          rest.filter (fun y =>
              decide (¬ ∃ x ∈ d ++ [lb], x.line_no = y.line_no)) =
            rest.filter
              fun y => decide (¬ ∃ x ∈ d, x.line_no = y.line_no) := by
        refine List.filter_congr ?_
        intro y hy
        rw [decide_eq_decide]
        refine not_congr ?_
        simp only [List.mem_append, List.mem_singleton]
        constructor
        · rintro ⟨x, hx | rfl, hxy⟩
          · exact ⟨x, hx, hxy⟩
          · exact absurd hxy.symm (hkey y hy)
        · rintro ⟨x, hx, hxy⟩
          exact ⟨x, Or.inl hx, hxy⟩
      rw [List.map_append, List.map_singleton, hlb, hfilt2,
        List.map_congr_left hdmap, List.filter_cons,
        if_pos (by simpa using hd), List.append_assoc, List.singleton_append]

/-- C3: for results with per-result unique line numbers (the shape the
search operation produces), `combine_with` adds the `matches` counts,
its `title_spans` is the sorted concatenation of both inputs' title spans
(a permutation of the concatenation — multiplicity preserved, no dedup —
sorted by `(start, end)`), and its `line_matches` merge the two inputs by
line number (spans of a line present in both are appended without dedup
or resort within the line, lines of only one input are kept as they are),
sorted ascending by `line_no`. -/
theorem combine_with_spec (a b : SearchResult)
    (ha : (a.line_matches.map LineMatch.line_no).Nodup)
    (hb : (b.line_matches.map LineMatch.line_no).Nodup) :
    (a.combine_with b).«matches» = a.«matches» + b.«matches»
  ∧ (a.combine_with b).title_spans.Perm (a.title_spans ++ b.title_spans)
  ∧ (a.combine_with b).title_spans.Sorted spanLe
  ∧ (a.combine_with b).line_matches.Perm
      (mergeLineMatches a.line_matches b.line_matches)
  ∧ ((a.combine_with b).line_matches.map LineMatch.line_no).Sorted
      (· ≤ ·) := by
  have hln : List.foldl dictAdd [] a.line_matches = a.line_matches := by
    simpa using foldl_dictAdd a.line_matches [] (by simpa using ha)
  have he : (a.combine_with b).line_matches =
      sortLineMatches (mergeLineMatches a.line_matches b.line_matches) := by
    show sortLineMatches
        (List.foldl dictExtend (List.foldl dictAdd [] a.line_matches)
          b.line_matches) = _
    rw [hln, foldl_dictExtend b.line_matches a.line_matches hb]
  refine ⟨rfl, ?_, ?_, ?_, ?_⟩
  · exact List.perm_insertionSort spanLe _
  · exact List.sorted_insertionSort spanLe _
  · rw [he]
    exact List.perm_insertionSort lmLe _
  · have hs : ((a.combine_with b).line_matches).Sorted lmLe := by
      rw [he]
      exact List.sorted_insertionSort lmLe _
    exact List.Pairwise.map _ (fun a b hab => hab) hs

/-- Witness for C3: both uniqueness hypotheses discharged at concrete
results sharing a matched line. -/
theorem combine_with_spec_witness :
    (sampleA.line_matches.map LineMatch.line_no).Nodup
  ∧ (sampleB.line_matches.map LineMatch.line_no).Nodup
  ∧ (sampleA.combine_with sampleB).«matches»
      = sampleA.«matches» + sampleB.«matches» :=
  ⟨by decide, by decide,
    (combine_with_spec sampleA sampleB (by decide) (by decide)).1⟩

/-! ### Claim C4: the AND branch of the query fold -/

/-- C4: in `AND` mode, a later term's result is combined into the
accumulated result exactly when both have strictly positive `matches`;
otherwise only the accumulated result's `matches` field is forced to `0`,
with its `title_spans` and `line_matches` (and title) left unchanged —
stale span data is retained. -/
theorem and_mode_fold_step (acc res : SearchResult) :
    (0 < acc.«matches» → 0 < res.«matches» →
      combineStep "AND" acc res = combine_results acc res)
  ∧ (¬ (0 < acc.«matches» ∧ 0 < res.«matches») →
      combineStep "AND" acc res = { acc with «matches» := 0 }) := by
  constructor
  · intro hA hB
    rw [combineStep, if_pos rfl, if_pos ⟨hA, hB⟩]
  · intro h
    rw [combineStep, if_pos rfl, if_neg h]

/-- Witness for C4: both branches exercised at concrete results. -/
theorem and_mode_fold_step_witness :
    combineStep "AND" sampleA sampleB = combine_results sampleA sampleB
  ∧ combineStep "AND" { sampleA with «matches» := 0 } sampleB
      = { { sampleA with «matches» := 0 } with «matches» := 0 } :=
  ⟨(and_mode_fold_step sampleA sampleB).1 (by decide) (by decide),
    (and_mode_fold_step { sampleA with «matches» := 0 } sampleB).2
      (by decide)⟩

/-! ### Claim C9: zero is absorbing in AND mode -/

lemma foldl_combineStep_and_zero :
    ∀ (l : List SearchResult) (acc : SearchResult), acc.«matches» = 0 →
      (List.foldl (combineStep "AND") acc l).«matches» = 0
  | [], _, h => h
  | r :: rest, acc, h => by
    rw [List.foldl_cons]
    refine foldl_combineStep_and_zero rest _ ?_
    rw [combineStep, if_pos rfl, if_neg fun hc => by omega]

/-- C9: in `AND` mode, once a document's accumulated result has
`matches = 0`, folding in the results of any further terms (whatever they
match) leaves `matches` at `0`. -/
theorem and_zero_absorbing (s : Sonnet) (acc : SearchResult)
    (h : acc.«matches» = 0) (ws : List (List Char)) :
    (List.foldl (combineStep "AND") acc
        (ws.map fun w => search_sonnet s w)).«matches» = 0 :=
  foldl_combineStep_and_zero _ acc h

/-- Witness for C9 at a concrete zeroed accumulator and a matching term. -/
theorem and_zero_absorbing_witness :
    ({ sampleA with «matches» := 0 } : SearchResult).«matches» = 0
  ∧ (List.foldl (combineStep "AND") { sampleA with «matches» := 0 }
        (["we".toList].map fun w => search_sonnet s1 w)).«matches» = 0 :=
  ⟨rfl, and_zero_absorbing s1 _ rfl ["we".toList]⟩

/-! ### Claim C5: unrecognized search mode -/

lemma combineStep_unknown (mode : String) (h1 : mode ≠ "AND")
    (h2 : mode ≠ "OR") (acc res : SearchResult) :
    combineStep mode acc res = acc := by
  rw [combineStep, if_neg h1, if_neg h2]

lemma zipWith_combineStep_unknown (mode : String) (h1 : mode ≠ "AND")
    (h2 : mode ≠ "OR") :
    ∀ (l1 l2 : List SearchResult), l1.length = l2.length →
      List.zipWith (combineStep mode) l1 l2 = l1
  | [], _, _ => by simp
  | _ :: _, [], h => by simp at h
  | a :: l1, b :: l2, h => by
    rw [List.zipWith_cons_cons, combineStep_unknown mode h1 h2,
      zipWith_combineStep_unknown mode h1 h2 l1 l2 (by simpa using h)]

lemma evaluateStep_unknown (sonnets : List Sonnet) (mode : String)
    (h1 : mode ≠ "AND") (h2 : mode ≠ "OR") (acc : List SearchResult)
    (w : List Char) (hlen : acc.length = sonnets.length) :
    evaluateStep sonnets mode acc w = acc := by
  by_cases hacc : acc = []
  · subst hacc
    have hs : sonnets = [] := List.eq_nil_of_length_eq_zero hlen.symm
    subst hs
    rfl
  · rw [evaluateStep, if_neg (by simpa using hacc)]
    exact zipWith_combineStep_unknown mode h1 h2 acc _ (by simpa using hlen)

lemma foldl_evaluateStep_unknown (sonnets : List Sonnet) (mode : String)
    (h1 : mode ≠ "AND") (h2 : mode ≠ "OR") :
    ∀ (ws : List (List Char)) (acc : List SearchResult),
      acc.length = sonnets.length →
      List.foldl (evaluateStep sonnets mode) acc ws = acc
  | [], _, _ => rfl
  | w :: ws, acc, hlen => by
    rw [List.foldl_cons, evaluateStep_unknown sonnets mode h1 h2 acc w hlen]
    exact foldl_evaluateStep_unknown sonnets mode h1 h2 ws acc hlen

/-- C5, amended: the mode dispatch in the query fold has no branch for an
unrecognized mode (`if "AND": ... elif "OR": ...` with no `else`), so an
unrecognized mode is silently ignored rather than failing: every term
after the first leaves the accumulated results untouched and the
evaluation returns the first term's per-document results. -/
theorem evaluate_unknown_mode (sonnets : List Sonnet) (w : List Char)
    (ws : List (List Char)) (mode : String)
    (h1 : mode ≠ "AND") (h2 : mode ≠ "OR") :
    evaluate sonnets (w :: ws) mode =
      sonnets.map fun s => search_sonnet s w := by
  rw [evaluate, List.foldl_cons]
  have h0 : evaluateStep sonnets mode [] w =
      sonnets.map fun s => search_sonnet s w := rfl
  rw [h0]
  exact foldl_evaluateStep_unknown sonnets mode h1 h2 ws _ (by simp)

/-- Witness for C5's amended statement at a concrete two-term query with
mode `"XOR"`. -/
theorem evaluate_unknown_mode_witness :
    ("XOR" : String) ≠ "AND" ∧ ("XOR" : String) ≠ "OR"
  ∧ evaluate [s1] ["we".toList, "qqq".toList] "XOR"
      = [s1].map fun s => search_sonnet s "we".toList :=
  ⟨by decide, by decide,
    evaluate_unknown_mode [s1] "we".toList ["qqq".toList] "XOR"
      (by decide) (by decide)⟩

/-- Counterexample for C5 as stated: with the unrecognized mode `"XOR"`
the evaluation does not fail — it silently produces a result, namely the
first term's results with the second term ignored. -/
theorem evaluate_unknown_mode_cex :
    evaluate [s1] ["we".toList, "qqq".toList] "XOR"
      = [search_sonnet s1 "we".toList] := by decide

/-! ### Claim C8: the two parallel implementations agree -/

/-- C8: the free functions of `app.py` and the methods of `models.py`
compute equal values: `search_sonnet` agrees with `Sonnet.search_for`
(same title, title spans, line matches and count), `combine_results`
agrees with `SearchResult.combine_with`, the two `ansi_highlight`
functions return identical strings, and the two `find_spans` agree. -/
theorem implementations_agree (s : Sonnet) (q : List Char)
    (a b : SearchResult) (t : List Char) (sp : List (Nat × Nat)) :
    search_sonnet s q = s.search_for q
  ∧ combine_results a b = a.combine_with b
  ∧ ansi_highlight t sp = SearchResult.ansi_highlight t sp
  ∧ find_spans t q = Sonnet.find_spans t q :=
  ⟨rfl, rfl, rfl, rfl⟩

/-! ### Claim C7: `combine_results` mutates `result1` -/

/-- C7 (the code defect): at the concrete pair `sampleA`/`sampleB`, which
share matched line 1, the post-call state of `result1` modelled by
`combine_results_mut` has line 1's span list grown by `result2`'s spans —
`result1` is not left unchanged.  (`models.py`'s `combine_with` copies the
span lists via `lm.copy()` and has no such effect; `app.py`'s
`combine_results` uses `dict(lm)`, which aliases them.) -/
theorem combine_results_mutates_result1 :
    (combine_results_mut sampleA sampleB).2.line_matches
      = [⟨1, "ab".toList, [(0, 2), (1, 2)]⟩]
  ∧ (combine_results_mut sampleA sampleB).2 ≠ sampleA :=
  ⟨by decide, by decide⟩
